import Mathlib

/-!
Verification development for an identity-and-access-management service built on
event sourcing with a transactional outbox.  The definitions below are shallow
embeddings of the program's data model and operations:

* `app/utils/models/aggregate_root.py` — aggregates, domain events, `mutate`,
  `_create_`, `_trigger_`, `_collect_`, replay;
* `app/domain/iam.py` — the permission bitmask mixin and the `User` aggregate;
* `app/utils/events/mapper.py` — the JSON transcoder with its envelope codec;
* `app/adapters/repository.py` — the event-store repository and outbox repository;
* `app/service_layer/unit_of_work.py` — backlog collection, commit, rollback;
* `app/service_layer/messagebus.py` — the message-bus control loop.

Conventions: Python UUIDs are modelled as `Nat`, timestamps as `Int`, byte
strings as `String`, `deque`s as `List`s used FIFO (append at the tail, pop at
the head).  Fallible Python code (raised exceptions) is modelled with `Except`.
-/

namespace IAM

/-- Errors raised by `Aggregate.Event.mutate`: `NotAggregateError` when the
target of a non-creation event is not an aggregate instance, and
`VersionError(got, expected)` when the event's version is not exactly the
aggregate's current version plus one. -/
inductive MutateError where
  | notAggregateError
  | versionError (got : Nat) (expected : Nat)
deriving DecidableEq, Repr

/-- A non-creation domain event (`Aggregate.Event` over `DomainEvent`): the
aggregate id, the event version, a timestamp, the two notifiability flags and
the event-specific payload fields (abstracted as `ε`). -/
structure Event (ε : Type) where
  id : Nat
  version : Nat
  timestamp : Int
  externally_notifiable : Bool
  internally_notifiable : Bool
  payload : ε
deriving Repr

/-- A creation event (`Aggregate.Created`).  Its payload `init` stands for the
event-specific keyword fields out of which `Created.mutate` constructs the
fresh aggregate's domain state. -/
structure CreatedEvent (σ : Type) where
  id : Nat
  version : Nat
  timestamp : Int
  externally_notifiable : Bool
  internally_notifiable : Bool
  init : σ
deriving Repr

/-- An entry of an aggregate's pending-event queue or of a stored log: either a
creation event or a regular event (in Python both live in the same deque since
`Created` subclasses `Event`). -/
inductive AggEvent (σ ε : Type) where
  | created (c : CreatedEvent σ)
  | event (e : Event ε)
deriving Repr

/-- Version carried by a queue entry. -/
def AggEvent.version : AggEvent σ ε → Nat
  | .created c => c.version
  | .event e => e.version

/-- The mutable aggregate projection: id, version, creation timestamp, last
update timestamp (absent until the first non-creation event is applied, since
`update_dt` is an `init=False` dataclass field set only by `Event.mutate`),
domain state `σ`, and the FIFO pending-events queue. -/
structure Aggregate (σ ε : Type) where
  id : Nat
  version : Nat
  create_dt : Int
  update_dt : Option Int
  state : σ
  events : List (AggEvent σ ε)
deriving Repr

/-- The `apply` hook of a concrete event class: it receives the event and the
aggregate (already stamped with the event's version and timestamp) and returns
the projected aggregate.  The base-class default is the identity. -/
def ApplyFn (σ ε : Type) : Type := Event ε → Aggregate σ ε → Aggregate σ ε

/-- Shallow embedding of `Aggregate.Event.mutate`: fails with
`NotAggregateError` when the target is not an aggregate instance; fails with
`VersionError(got, expected)` unless `event.version == target.version + 1`;
otherwise sets the aggregate's version to the event's version and its update
timestamp to the event's timestamp, then runs the event's `apply` hook. -/
def mutate (ap : ApplyFn σ ε) (e : Event ε) (obj : Option (Aggregate σ ε)) :
    Except MutateError (Aggregate σ ε) :=
  match obj with
  | none => .error .notAggregateError
  | some a =>
      if e.version = a.version + 1 then
        .ok (ap e { a with version := e.version, update_dt := some e.timestamp })
      else
        .error (.versionError e.version (a.version + 1))

/-- Shallow embedding of `Aggregate.Created.mutate`: ignores the target and
constructs a brand-new aggregate from the event's fields (`id`, `version`,
`create_dt := timestamp`, remaining kwargs as domain state); its pending queue
starts empty (`__post_init__`) and `update_dt` is not yet set. -/
def createdMutate (c : CreatedEvent σ) : Aggregate σ ε :=
  { id := c.id, version := c.version, create_dt := c.timestamp,
    update_dt := none, state := c.init, events := [] }

/-- Dispatch of `mutate` over a log entry, as done during replay: creation
events build a fresh aggregate regardless of the accumulator, regular events
go through the version-checked `mutate`. -/
def mutateAny (ap : ApplyFn σ ε) :
    AggEvent σ ε → Option (Aggregate σ ε) → Except MutateError (Aggregate σ ε)
  | .created c, _ => .ok (createdMutate c)
  | .event e, obj => mutate ap e obj

/-- Shallow embedding of `Aggregate._create_`: builds the creation event with
version 1 and the given id and timestamp, applies it via `mutate(None)` and
appends it to the new aggregate's pending queue. -/
def create (id : Nat) (ts : Int) (en inn : Bool) (init : σ) : Aggregate σ ε :=
  let c : CreatedEvent σ :=
    { id := id, version := 1, timestamp := ts,
      externally_notifiable := en, internally_notifiable := inn, init := init }
  let a : Aggregate σ ε := createdMutate c
  { a with events := a.events ++ [.created c] }

/-- Shallow embedding of `Aggregate._trigger_`: constructs an event stamped
with the aggregate's id and version `current + 1`, mutates the aggregate with
it, and appends the event to the pending queue. -/
def trigger (ap : ApplyFn σ ε) (a : Aggregate σ ε) (ts : Int) (en inn : Bool)
    (p : ε) : Except MutateError (Aggregate σ ε) :=
  let e : Event ε :=
    { id := a.id, version := a.version + 1, timestamp := ts,
      externally_notifiable := en, internally_notifiable := inn, payload := p }
  (mutate ap e (some a)).map fun a2 => { a2 with events := a2.events ++ [.event e] }

/-- Shallow embedding of `Aggregate._collect_` (fully consumed): returns the
pending events in FIFO order and the aggregate with an emptied queue. -/
def collect (a : Aggregate σ ε) : List (AggEvent σ ε) × Aggregate σ ε :=
  (a.events, { a with events := [] })

/-- Replay loop of `EventStoreProxy._get`: folds `mutate` over the stored
events starting from `None`. -/
def replayAux (ap : ApplyFn σ ε) :
    Option (Aggregate σ ε) → List (AggEvent σ ε) →
    Except MutateError (Option (Aggregate σ ε))
  | acc, [] => .ok acc
  | acc, e :: es =>
      match mutateAny ap e acc with
      | .ok a => replayAux ap (some a) es
      | .error err => .error err

/-- Replay a full stored event sequence from empty state. -/
def replay (ap : ApplyFn σ ε) (log : List (AggEvent σ ε)) :
    Except MutateError (Option (Aggregate σ ε)) :=
  replayAux ap none log

/-- One replay step on an already-existing aggregate, in the success case:
stamp version and update timestamp, then run the apply hook. -/
def replayStep (ap : ApplyFn σ ε) (a : Aggregate σ ε) (e : Event ε) :
    Aggregate σ ε :=
  ap e { a with version := e.version, update_dt := some e.timestamp }

/-! ### Permission bitmask (`PermissionControl` in `app/domain/iam.py`) -/

/-- Shallow embedding of `PermissionControl._has_permission(*perm)`: true when
for every requested permission `p` the check `permissions & p == p` holds. -/
def has_permission (permissions : Nat) (perm : List Nat) : Bool :=
  perm.all fun p => permissions &&& p == p

/-- Shallow embedding of `PermissionControl._add_permission(*perm)`: for each
`p`, when the (current) permissions do not yet contain `p`, do
`permissions += p`.  The propagation hook is a no-op on `PermissionControl`. -/
def add_permission (permissions : Nat) (perm : List Nat) : Nat :=
  perm.foldl (fun acc p => if has_permission acc [p] then acc else acc + p)
    permissions

/-- Shallow embedding of `PermissionControl._remove_permission(*perm)`: for
each `p`, when the (current) permissions contain `p`, do `permissions -= p`. -/
def remove_permission (permissions : Nat) (perm : List Nat) : Nat :=
  perm.foldl (fun acc p => if has_permission acc [p] then acc - p else acc)
    permissions

/-- The numeric values of the `AccessPermission` enum in `app/domain/enums.py`
(`DEFAULT = 0` and fourteen power-of-two flags up to `GPU_FOR_DOC = 8192`). -/
def AccessPermissionValues : List Nat :=
  [0, 1, 2, 4, 8, 16, 32, 64, 128, 256, 512, 1024, 2048, 4096, 8192]

/-- `AccessPermission.ACADEMIC`. -/
def ACADEMIC : Nat := 64

/-! ### The `User` aggregate (`app/domain/iam.py`) -/

/-- Domain fields of the `User` aggregate (the dataclass fields that are not
part of the `Aggregate` bookkeeping). -/
structure UserState where
  name : String
  email : String
  email_verified : Bool
  permissions : Nat
  groups : List Nat
deriving Repr

/-- Payloads of the `User` event classes. -/
inductive UserEventPayload where
  | purchaseMade (requested_access : List Nat)
  | permissionAssigned (requested_access : List Nat)
  | permissionExpired (expired_permissions : List Nat)
  | createGroupRequested (name : String) (user_id : Nat) (group_id : Nat)
deriving Repr

/-- A `User` aggregate instance. -/
def UserAgg : Type := Aggregate UserState UserEventPayload

/-- Dispatch of the `apply` hooks of the `User` event classes:
`PurchaseMade` and `CreateGroupRequested` inherit the no-op default;
`PermissionAssigned.apply` adds the requested permissions when the user does
not already have them all; `PermissionExpired.apply` removes the expired
permissions. -/
def applyUser : ApplyFn UserState UserEventPayload := fun e a =>
  match e.payload with
  | .purchaseMade _ => a
  | .permissionAssigned ra =>
      if has_permission a.state.permissions ra then a
      else { a with state :=
              { a.state with permissions := add_permission a.state.permissions ra } }
  | .permissionExpired ps =>
      { a with state :=
          { a.state with permissions := remove_permission a.state.permissions ps } }
  | .createGroupRequested _ _ _ => a

/-- The `MakePurchase` command (already in refined form: `requested_access` is
a list, which `_refine_command` leaves unchanged). -/
structure MakePurchase where
  requested_access : List Nat
  is_group_purchase : Bool
deriving Repr

/-- Shallow embedding of `User.assign_permission`: triggers a
`PermissionAssigned` event carrying the requested access. -/
def assign_permission (u : UserAgg) (requested_access : List Nat) (ts : Int) :
    Except MutateError UserAgg :=
  trigger applyUser u ts false false (.permissionAssigned requested_access)

/-- Shallow embedding of `User.make_purchase`: triggers a `PurchaseMade`
event and, when the purchase is not a group purchase, executes the chained
`AssignPermission` command, which triggers a `PermissionAssigned` event.  The
two `datetime.now()` stamps are passed as `ts1` and `ts2`. -/
def make_purchase (u : UserAgg) (msg : MakePurchase) (ts1 ts2 : Int) :
    Except MutateError UserAgg := do
  let u1 ← trigger applyUser u ts1 false false (.purchaseMade msg.requested_access)
  if msg.is_group_purchase then
    .ok u1
  else
    assign_permission u1 msg.requested_access ts2

/-! ### Transcoder (`app/utils/events/mapper.py`)

The `json` module's printing/parsing of a JSON tree is an external, lossless
stdlib boundary; the embedding therefore works on JSON trees (`JValue`)
rather than on the UTF-8 byte strings, and models exactly the repository's
code: the envelope produced by `Transcoder._encode_dict` and the object hook
`Transcoder._decode_dict`, with the four built-in registrations
(`uuid_hex`, `pguuid_hex`, `decimal_str`, `datetime_iso`). -/

/-- Errors of the transcoding pipeline: `typeError` is the `TypeError` raised
by `_encode_dict` for an unregistered type, `keyError` the `KeyError` raised
by `_decode_dict` looking up an unregistered tag (or a tag that is not a
string), `assertionError` the failed `isinstance(d, str)` assertion in a
registered decoder, `valueError` an invalid payload for the typed value. -/
inductive TranscodeError where
  | typeError (typeName : String)
  | keyError
  | assertionError
  | valueError
deriving DecidableEq, Repr

/-- A JSON tree, the target of `Transcoder.encode`. -/
inductive JValue where
  | null
  | bool (b : Bool)
  | int (n : Int)
  | str (s : String)
  | arr (xs : List JValue)
  | obj (kvs : List (String × JValue))
deriving Repr

/-- A Python value submitted to the transcoder: the JSON primitives plus the
four registered custom types (UUID, driver-native UUID, fixed-point decimal,
timestamp, each carried by its canonical string form) plus an object of an
unregistered type. -/
inductive PyValue where
  | null
  | bool (b : Bool)
  | int (n : Int)
  | str (s : String)
  | list (xs : List PyValue)
  | dict (kvs : List (String × PyValue))
  | uuid (hex : String)
  | pguuid (hex : String)
  | decimal (s : String)
  | datetime (iso : String)
  | unregistered (typeName : String)
deriving Repr

/-- Lowercase hexadecimal digit. -/
def isLowerHexDigit (c : Char) : Bool :=
  c.isDigit || (Char.ofNat 97 ≤ c && c ≤ Char.ofNat 102)

/-- Canonical form produced by Python's `UUID.hex`: 32 lowercase hex digits. -/
def isCanonicalHex (s : String) : Bool :=
  s.length == 32 && s.toList.all isLowerHexDigit

mutual

/-- Shallow embedding of `Transcoder.encode` down to the JSON tree: JSON
primitives pass through, containers recurse, each registered custom type is
wrapped by `_encode_dict` into the envelope
`dict(__type__ := tag, __data__ := encoded)`, and an unregistered
non-primitive raises `TypeError`. -/
def encodePy : PyValue → Except TranscodeError JValue
  | .null => .ok .null
  | .bool b => .ok (.bool b)
  | .int n => .ok (.int n)
  | .str s => .ok (.str s)
  | .list xs => (encodePyList xs).map .arr
  | .dict kvs => (encodePyDict kvs).map .obj
  | .uuid h => .ok (.obj [("__type__", .str "uuid_hex"), ("__data__", .str h)])
  | .pguuid h => .ok (.obj [("__type__", .str "pguuid_hex"), ("__data__", .str h)])
  | .decimal s => .ok (.obj [("__type__", .str "decimal_str"), ("__data__", .str s)])
  | .datetime s => .ok (.obj [("__type__", .str "datetime_iso"), ("__data__", .str s)])
  | .unregistered t => .error (.typeError t)

/-- Elementwise encoding of a Python list. -/
def encodePyList : List PyValue → Except TranscodeError (List JValue)
  | [] => .ok []
  | x :: xs => do
      let y ← encodePy x
      let ys ← encodePyList xs
      .ok (y :: ys)

/-- Valuewise encoding of a Python dict (keys are JSON object keys). -/
def encodePyDict :
    List (String × PyValue) → Except TranscodeError (List (String × JValue))
  | [] => .ok []
  | (k, v) :: kvs => do
      let y ← encodePy v
      let ys ← encodePyDict kvs
      .ok ((k, y) :: ys)

end

/-- The key-set test of `Transcoder._decode_dict`:
`set(d.keys()) == set(("__type__", "__data__"))`. -/
def isEnvelopeKeyList (keys : List String) : Bool :=
  keys.all (fun k => k == "__type__" || k == "__data__") &&
    keys.contains "__type__" && keys.contains "__data__"

/-- Dispatch on the registered tag (`Transcoder.names`) followed by the
registered decoder: `UUIDAsHex` asserts a string payload and parses it as a
UUID (modelled for the canonical 32-lowercase-hex form that `UUID.hex`
emits); `PgUUIDAsHex.decode` likewise asserts a string payload and returns a
plain standard-library `UUID(d)` — not a driver-native `pgproto.UUID` — so
the `pguuid_hex` envelope decodes to the standard UUID value;
`DecimalAsStr` and `DatetimeAsISO` assert a string payload and reconstruct
the value from it.  An unregistered tag raises `KeyError`. -/
def transcodingDecode (tag : String) (data : PyValue) :
    Except TranscodeError PyValue :=
  if tag == "uuid_hex" then
    match data with
    | .str s => if isCanonicalHex s then .ok (.uuid s) else .error .valueError
    | _ => .error .assertionError
  else if tag == "pguuid_hex" then
    match data with
    | .str s => if isCanonicalHex s then .ok (.uuid s) else .error .valueError
    | _ => .error .assertionError
  else if tag == "decimal_str" then
    match data with
    | .str s => .ok (.decimal s)
    | _ => .error .assertionError
  else if tag == "datetime_iso" then
    match data with
    | .str s => .ok (.datetime s)
    | _ => .error .assertionError
  else
    .error .keyError

/-- Shallow embedding of the object hook `Transcoder._decode_dict`, applied to
a dict whose values are already decoded: when the key set is exactly
`("__type__", "__data__")` the tag's registered decoder is dispatched (a tag
that is not a string fails the registry lookup, as in Python); any other dict
is returned unchanged. -/
def applyObjectHook (kvs : List (String × PyValue)) :
    Except TranscodeError PyValue :=
  if isEnvelopeKeyList (kvs.map Prod.fst) then
    match kvs.lookup "__type__", kvs.lookup "__data__" with
    | some (.str tag), some data => transcodingDecode tag data
    | some _, some _ => .error .keyError
    | _, _ => .error .keyError
  else
    .ok (.dict kvs)

mutual

/-- Shallow embedding of `Transcoder.decode` from the parsed JSON tree:
primitives pass through, arrays recurse, and every object goes through the
object hook `_decode_dict` bottom-up, exactly as `json.JSONDecoder` with
`object_hook` does. -/
def decodeJ : JValue → Except TranscodeError PyValue
  | .null => .ok .null
  | .bool b => .ok (.bool b)
  | .int n => .ok (.int n)
  | .str s => .ok (.str s)
  | .arr xs => (decodeJList xs).map .list
  | .obj kvs => do
      let kvs2 ← decodeJDict kvs
      applyObjectHook kvs2

/-- Elementwise decoding of a JSON array. -/
def decodeJList : List JValue → Except TranscodeError (List PyValue)
  | [] => .ok []
  | x :: xs => do
      let y ← decodeJ x
      let ys ← decodeJList xs
      .ok (y :: ys)

/-- Valuewise decoding of a JSON object. -/
def decodeJDict :
    List (String × JValue) → Except TranscodeError (List (String × PyValue))
  | [] => .ok []
  | (k, v) :: kvs => do
      let y ← decodeJ v
      let ys ← decodeJDict kvs
      .ok ((k, y) :: ys)

end

mutual

/-- Values on which the round-trip law can hold: built only from JSON
primitives and the registered types, with canonical payloads, containing no
dict whose key set collides with the codec envelope, and containing no
driver-native UUID — `PgUUIDAsHex.decode` returns a plain `UUID`, so the
`pguuid_hex` envelope never decodes back to a `pguuid` value. -/
def wfPy : PyValue → Bool
  | .null => true
  | .bool _ => true
  | .int _ => true
  | .str _ => true
  | .list xs => wfPyList xs
  | .dict kvs => !isEnvelopeKeyList (kvs.map Prod.fst) && wfPyDict kvs
  | .uuid h => isCanonicalHex h
  | .pguuid _ => false
  | .decimal _ => true
  | .datetime _ => true
  | .unregistered _ => false

/-- All elements well formed. -/
def wfPyList : List PyValue → Bool
  | [] => true
  | x :: xs => wfPy x && wfPyList xs

/-- All values well formed. -/
def wfPyDict : List (String × PyValue) → Bool
  | [] => true
  | (_, v) :: kvs => wfPy v && wfPyDict kvs

end

/-- Reduction of `Except.map` on a success value. -/
theorem except_map_ok {α β ε : Type} (f : α → β) (a : α) :
    Except.map (ε := ε) f (.ok a) = .ok (f a) := rfl

/-- Reduction of `Except.bind` on a success value. -/
theorem except_bind_ok {α β ε : Type} (f : α → Except ε β) (a : α) :
    Except.bind (Except.ok a) f = f a := rfl

/-- Reduction of monadic bind on a success value of `Except`. -/
theorem except_bindM_ok {α β ε : Type} (f : α → Except ε β) (a : α) :
    (Except.ok a >>= f) = f a := rfl

mutual

/-- Round trip on well-formed values: decoding inverts encoding. -/
theorem decode_encode_py :
    ∀ v : PyValue, wfPy v = true → ∃ j, encodePy v = .ok j ∧ decodeJ j = .ok v
  | .null, _ => ⟨.null, rfl, rfl⟩
  | .bool b, _ => ⟨.bool b, rfl, rfl⟩
  | .int n, _ => ⟨.int n, rfl, rfl⟩
  | .str s, _ => ⟨.str s, rfl, rfl⟩
  | .list xs, h => by
      have hxs : wfPyList xs = true := by simpa [wfPy] using h
      obtain ⟨js, he, hd⟩ := decode_encode_pyList xs hxs
      exact ⟨.arr js, by simp [encodePy, he, except_map_ok],
        by simp [decodeJ, hd, except_map_ok]⟩
  | .dict kvs, h => by
      have h2 : isEnvelopeKeyList (kvs.map Prod.fst) = false ∧ wfPyDict kvs = true := by
        simpa [wfPy, Bool.and_eq_true] using h
      obtain ⟨js, he, hkeys, hd⟩ := decode_encode_pyDict kvs h2.2
      refine ⟨.obj js, by simp [encodePy, he, except_map_ok], ?_⟩
      have hgoal : decodeJ (.obj js) = applyObjectHook kvs := by
        simp only [decodeJ, hd]
        rfl
      rw [hgoal]
      simp [applyObjectHook, hkeys, h2.1]
  | .uuid s, h => by
      have h1 : isCanonicalHex s = true := by simpa [wfPy] using h
      refine ⟨.obj [("__type__", .str "uuid_hex"), ("__data__", .str s)], rfl, ?_⟩
      show (if isCanonicalHex s then Except.ok (PyValue.uuid s)
            else Except.error TranscodeError.valueError) = Except.ok (PyValue.uuid s)
      simp [h1]
  | .pguuid _, h => nomatch h
  | .decimal s, _ =>
      ⟨.obj [("__type__", .str "decimal_str"), ("__data__", .str s)], rfl, rfl⟩
  | .datetime s, _ =>
      ⟨.obj [("__type__", .str "datetime_iso"), ("__data__", .str s)], rfl, rfl⟩
  | .unregistered _, h => nomatch h

/-- Elementwise round trip for lists. -/
theorem decode_encode_pyList :
    ∀ xs : List PyValue, wfPyList xs = true →
      ∃ js, encodePyList xs = .ok js ∧ decodeJList js = .ok xs
  | [], _ => ⟨[], rfl, rfl⟩
  | x :: xs, h => by
      have h2 : wfPy x = true ∧ wfPyList xs = true := by
        simpa [wfPyList, Bool.and_eq_true] using h
      obtain ⟨j, hej, hdj⟩ := decode_encode_py x h2.1
      obtain ⟨js, hejs, hdjs⟩ := decode_encode_pyList xs h2.2
      refine ⟨j :: js, ?_, ?_⟩
      · simp only [encodePyList, hej, hejs]
        rfl
      · simp only [decodeJList, hdj, hdjs]
        rfl

/-- Valuewise round trip for dicts; encoding preserves the key list. -/
theorem decode_encode_pyDict :
    ∀ kvs : List (String × PyValue), wfPyDict kvs = true →
      ∃ js, encodePyDict kvs = .ok js ∧ js.map Prod.fst = kvs.map Prod.fst ∧
        decodeJDict js = .ok kvs
  | [], _ => ⟨[], rfl, rfl, rfl⟩
  | (k, v) :: kvs, h => by
      have h2 : wfPy v = true ∧ wfPyDict kvs = true := by
        simpa [wfPyDict, Bool.and_eq_true] using h
      obtain ⟨j, hej, hdj⟩ := decode_encode_py v h2.1
      obtain ⟨js, hejs, hkeys, hdjs⟩ := decode_encode_pyDict kvs h2.2
      refine ⟨(k, j) :: js, ?_, by simp [hkeys], ?_⟩
      · simp only [encodePyDict, hej, hejs]
        rfl
      · simp only [decodeJDict, hdj, hdjs]
        rfl

end

/-! ### Event store (`EventStoreRepository._get`, `PostgresAggregateRecorder.get`) -/

/-- A stored-event row of the event table: stringified aggregate id, version,
topic and opaque state payload. -/
structure StoredEvent where
  id : String
  version : Nat
  topic : String
  state : String
deriving DecidableEq, Repr

/-- Bulk insert of `_insert_events`: appends the batch to the table (a no-op
for an empty batch). -/
def eventStoreAdd (table : List StoredEvent) (events : List StoredEvent) :
    List StoredEvent :=
  table ++ events

/-- Shallow embedding of the recorder query
`SELECT * FROM iam_event_store WHERE id = :id`: all rows of the table whose id
matches, in table order.  The query carries no ORDER BY clause, so the row
order is the table's order, modelled as insertion order. -/
def eventStoreGet (table : List StoredEvent) (aggregate_id : String) :
    List StoredEvent :=
  table.filter fun r => r.id == aggregate_id

/-! ### Unit of work (`app/service_layer/unit_of_work.py`)

The `SqlAlchemyUnitOfWork` binds `users` and `groups` to weak proxies of one
shared `EventStoreProxy` and `outboxes` to an `OutboxRepository`; the state
below therefore carries one backlog pair for the event-store proxy (drained
through both the `users` and the `groups` handle) and one for the outbox
repository, plus the session's already-staged (`pending`) and durable
(`committed`) rows. -/

/-- The quadruple the mapper extracts from a domain event
(`Mapper._convert_domain_event`), together with the notifiability flags of
the event. -/
structure BacklogEvent where
  id : String
  version : Nat
  topic : String
  state : String
  externally_notifiable : Bool
  internally_notifiable : Bool
deriving DecidableEq, Repr

/-- A row staged in or committed by the session: an event-table row or an
outbox-table row. -/
inductive DbRow where
  | event (se : StoredEvent)
  | outbox (aggregate_id : String) (topic : String) (state : String)
deriving DecidableEq, Repr

/-- Python runtime errors surfacing in the unit-of-work paths. -/
inductive PyError where
  | attributeError
deriving DecidableEq, Repr

/-- State of one open `SqlAlchemyUnitOfWork`. -/
structure UowState where
  committed : List DbRow
  pending : List DbRow
  es_external : List BacklogEvent
  es_internal : List BacklogEvent
  ob_external : List BacklogEvent
  ob_internal : List BacklogEvent
deriving DecidableEq, Repr

/-- The `in_out` selector of `collect_backlogs`. -/
inductive BacklogKind where
  | internal
  | external
deriving DecidableEq, Repr

/-- Shallow embedding of `AbstractUnitOfWork.collect_backlogs`, fully
consumed: drains the selected backlog deque of `self.users`, then of
`self.groups`, then of `self.outboxes`, FIFO within each.  `users` and
`groups` are weak proxies of the same event-store proxy, so the `groups` pass
reads the deque the `users` pass has just emptied. -/
def collect_backlogs (s : UowState) (in_out : BacklogKind) :
    List BacklogEvent × UowState :=
  match in_out with
  | .internal =>
      let fromUsers := s.es_internal
      let s1 := { s with es_internal := [] }
      let fromGroups := s1.es_internal
      let s2 := { s1 with es_internal := [] }
      let fromOutboxes := s2.ob_internal
      let s3 := { s2 with ob_internal := [] }
      (fromUsers ++ fromGroups ++ fromOutboxes, s3)
  | .external =>
      let fromUsers := s.es_external
      let s1 := { s with es_external := [] }
      let fromGroups := s1.es_external
      let s2 := { s1 with es_external := [] }
      let fromOutboxes := s2.ob_external
      let s3 := { s2 with ob_external := [] }
      (fromUsers ++ fromGroups ++ fromOutboxes, s3)

/-- Argument of `AbstractRepository.add` as seen by the hook: an aggregate
(which has an `events` deque) or a domain event (which has no `events`
attribute). -/
inductive RepoAddArg where
  | aggregate (pending : List BacklogEvent)
  | domainEvent (e : BacklogEvent)

/-- Python attribute access `o.events`: succeeds on an aggregate, raises
`AttributeError` on a domain event (`DomainEvent` declares only `id`,
`version`, `timestamp` and the two notifiability flags). -/
def getEventsAttr : RepoAddArg → Except PyError (List BacklogEvent)
  | .aggregate evs => .ok evs
  | .domainEvent _ => .error .attributeError

/-- Shallow embedding of `SqlAlchemyRepository._add_hook`: extends the
repository's external backlog with the externally notifiable entries of
`o.events` for each argument. -/
def sqlAlchemyAddHook (external_backlogs : List BacklogEvent)
    (o : RepoAddArg) : Except PyError (List BacklogEvent) :=
  (getEventsAttr o).map fun evs =>
    external_backlogs ++ evs.filter (fun e => e.externally_notifiable)

/-- Shallow embedding of `OutboxRepository.add` called on one domain event
(`AbstractRepository.add` runs `_add_hook` before `_add`): the inherited hook
evaluates `o.events` first; only if that succeeded would `_add` stage one
outbox row built by the mapper from the event. -/
def outboxRepoAdd (s : UowState) (e : BacklogEvent) : Except PyError UowState := do
  let ext ← sqlAlchemyAddHook s.ob_external (.domainEvent e)
  .ok { s with ob_external := ext,
               pending := s.pending ++ [.outbox e.id e.topic e.state] }

/-- Shallow embedding of `SqlAlchemyUnitOfWork._commit_hook`: for each event
of the external backlogs, call `outboxes.add`. -/
def commit_hook (s : UowState) : Except PyError UowState :=
  let collected := collect_backlogs s .external
  collected.1.foldlM outboxRepoAdd collected.2

/-- Shallow embedding of `AbstractUnitOfWork.commit`: run `_commit_hook`,
then commit the session, making every staged row durable in one step. -/
def uowCommit (s : UowState) : Except PyError UowState :=
  (commit_hook s).map fun s2 =>
    { s2 with committed := s2.committed ++ s2.pending, pending := [] }

/-- Shallow embedding of `SqlAlchemyUnitOfWork.__aexit__` (exit without an
explicit commit): `session.rollback()` discards every staged row; the
committed rows are untouched. -/
def uowAexit (s : UowState) : UowState :=
  { s with pending := [] }

/-! ### Message bus (`app/service_layer/messagebus.py`)

Handlers are modelled by the observable outcome of one invocation: a normal
return (an optional result plus the internal backlog the handler left in the
unit of work), a raised `StopSentinel` (with an optional fallback event), or
any other raised exception. -/

/-- A queued message: a domain event or a command, identified by its type
tag. -/
inductive BusMessage where
  | event (tag : Nat)
  | command (tag : Nat)
deriving DecidableEq, Repr

/-- Outcome of invoking one event handler. -/
inductive EventHandlerOutcome where
  | ok (res : Option Nat) (backlog : List BusMessage)
  | stop (fallback : Option BusMessage)
  | exn
deriving Repr

/-- Outcome of invoking a command handler. -/
inductive CommandHandlerOutcome where
  | ok (res : Nat) (backlog : List BusMessage)
  | exn
deriving Repr

/-- Errors that abort `MessageBus.handle`. -/
inductive BusError where
  | commandHandlerError
  | fuelExhausted
deriving DecidableEq, Repr

/-- The bus wiring: for an event tag the outcomes of its registered handlers
in registration order, for a command tag the outcome of its single handler. -/
structure MessageBusModel where
  event_handlers : Nat → List EventHandlerOutcome
  command_handlers : Nat → CommandHandlerOutcome

/-- Shallow embedding of `MessageBus.handle_event`: invoke every handler in
order; on a normal return extend the queue with the handler's internal
backlog and append a truthy result; on `StopSentinel` abort the remaining
handlers, appending the fallback event to the queue when one is supplied; on
any other exception record it and continue with the next handler (the backlog
drain inside the `try` block is skipped). -/
def handle_event (handlers : List EventHandlerOutcome) (queue : List BusMessage)
    (results : List Nat) : List BusMessage × List Nat :=
  match handlers with
  | [] => (queue, results)
  | .ok res backlog :: hs => handle_event hs (queue ++ backlog) (results ++ res.toList)
  | .stop fallback :: _ => (queue ++ fallback.toList, results)
  | .exn :: hs => handle_event hs queue results

/-- Shallow embedding of the work-queue loop of `MessageBus.handle`, with
explicit fuel for the outer `while`: events fan out through `handle_event`;
a command runs its single handler, whose exception propagates and aborts the
whole call, and whose result is appended to the results. -/
def handleLoop (bus : MessageBusModel) :
    Nat → List BusMessage → List Nat → Except BusError (List Nat)
  | _, [], results => .ok results
  | 0, _ :: _, _ => .error .fuelExhausted
  | fuel + 1, .event tag :: queue, results =>
      let out := handle_event (bus.event_handlers tag) queue results
      handleLoop bus fuel out.1 out.2
  | fuel + 1, .command tag :: queue, results =>
      match bus.command_handlers tag with
      | .ok res backlog => handleLoop bus fuel (queue ++ backlog) (results ++ [res])
      | .exn => .error .commandHandlerError

/-- Shallow embedding of `MessageBus.handle`: seed the queue with the message
and run the loop. -/
def handle (bus : MessageBusModel) (fuel : Nat) (m : BusMessage) :
    Except BusError (List Nat) :=
  handleLoop bus fuel [m] []

/-! ## Claim theorems -/

/-- C1: applying an event via `mutate` raises `VersionError` carrying the got
and expected versions whenever the event's version is not exactly the
aggregate's current version plus one; applying a non-creation event to a
target that is not an aggregate instance raises `NotAggregateError`; when the
version check passes, the aggregate's version is set to the event's version
and its update timestamp to the event's timestamp before the event's `apply`
hook runs. -/
theorem c1_mutate_guards {σ ε : Type} (ap : ApplyFn σ ε) (e : Event ε)
    (a : Aggregate σ ε) :
    mutate ap e none = .error .notAggregateError
    ∧ (e.version ≠ a.version + 1 →
        mutate ap e (some a) = .error (.versionError e.version (a.version + 1)))
    ∧ (e.version = a.version + 1 →
        mutate ap e (some a) =
          .ok (ap e { a with version := e.version, update_dt := some e.timestamp })) := by
  refine ⟨rfl, ?_, ?_⟩
  · intro h
    simp [mutate, h]
  · intro h
    simp [mutate, h]

/-- Identity apply hook over trivial domain state, used by witnesses. -/
def apUnit : ApplyFn Unit Unit := fun _ a => a

/-- A fixture aggregate at version 1. -/
def aggW : Aggregate Unit Unit :=
  { id := 7, version := 1, create_dt := 0, update_dt := none, state := (),
    events := [] }

/-- An event with a version gap (version 5 against aggregate version 1). -/
def evGapW : Event Unit :=
  { id := 7, version := 5, timestamp := 3, externally_notifiable := false,
    internally_notifiable := false, payload := () }

/-- An event with the exactly-next version. -/
def evNextW : Event Unit :=
  { id := 7, version := 2, timestamp := 3, externally_notifiable := false,
    internally_notifiable := false, payload := () }

/-- Witness for C1 at concrete inputs: the gap event yields
`VersionError(5, 2)`, the target `none` yields `NotAggregateError`, and the
in-sequence event updates version and timestamp. -/
theorem c1_mutate_guards_witness :
    mutate apUnit evGapW none = .error .notAggregateError
    ∧ mutate apUnit evGapW (some aggW) = .error (.versionError 5 2)
    ∧ mutate apUnit evNextW (some aggW) =
        .ok { id := 7, version := 2, create_dt := 0, update_dt := some 3,
              state := (), events := [] } := by
  refine ⟨(c1_mutate_guards apUnit evGapW aggW).1, ?_, ?_⟩
  · exact (c1_mutate_guards apUnit evGapW aggW).2.1 (by decide)
  · exact (c1_mutate_guards apUnit evNextW aggW).2.2 (by decide)

/-- Replay over regular events with consecutive versions succeeds and composes
the per-event projection steps; the final version advances by the number of
events (helper for the replay claim). -/
theorem replayAux_consecutive {σ ε : Type} (ap : ApplyFn σ ε)
    (hver : ∀ e x, (ap e x).version = x.version) :
    ∀ (es : List (Event ε)) (a : Aggregate σ ε),
      es.map Event.version = List.range' (a.version + 1) es.length →
      replayAux ap (some a) (es.map AggEvent.event)
          = .ok (some (es.foldl (replayStep ap) a))
      ∧ (es.foldl (replayStep ap) a).version = a.version + es.length := by
  intro es
  induction es with
  | nil =>
      intro a _
      exact ⟨rfl, rfl⟩
  | cons e tl ih =>
      intro a h
      rw [List.length_cons, List.range'_succ, List.map_cons, List.cons_eq_cons] at h
      have hv : e.version = a.version + 1 := h.1
      have hstep : replayStep ap a e =
          ap e { a with version := e.version, update_dt := some e.timestamp } := rfl
      have hver2 : (replayStep ap a e).version = a.version + 1 := by
        rw [hstep, hver]
        exact hv
      have ih2 := ih (replayStep ap a e) (by rw [hver2]; exact h.2)
      constructor
      · show replayAux ap (some a) (.event e :: tl.map AggEvent.event) = _
        rw [show replayAux ap (some a) (.event e :: tl.map AggEvent.event)
              = replayAux ap (some (replayStep ap a e)) (tl.map AggEvent.event) by
            simp [replayAux, mutateAny, mutate, hv, replayStep]]
        exact ih2.1
      · rw [List.foldl_cons, ih2.2, hver2, List.length_cons]
        omega

/-- C2: replaying a full stored event sequence from empty state — `mutate`
folded over the events starting from `None`, the first being a Created event
with version 1 and the rest regular events with consecutive versions — yields
the aggregate obtained by folding the per-event projection step over the
freshly constructed aggregate (the sequential composition of each event's
`apply`), and its version equals the number of events.  The hypothesis on the
apply hooks records that the projections of this repository touch only domain
fields, never the version bookkeeping; `replay` is a function of the log, so
the result is deterministic given the same log. -/
theorem c2_replay_full_log {σ ε : Type} (ap : ApplyFn σ ε)
    (hver : ∀ e x, (ap e x).version = x.version) (c : CreatedEvent σ)
    (es : List (Event ε)) (hc : c.version = 1)
    (hes : es.map Event.version = List.range' 2 es.length) :
    replay ap (.created c :: es.map .event)
        = .ok (some (es.foldl (replayStep ap) (createdMutate c)))
    ∧ (es.foldl (replayStep ap) (createdMutate c)).version
        = (AggEvent.created c :: es.map AggEvent.event).length := by
  have hv0 : (createdMutate c : Aggregate σ ε).version = 1 := hc
  have haux := replayAux_consecutive ap hver es (createdMutate c)
    (by rw [hv0]; exact hes)
  constructor
  · show replayAux ap none (.created c :: es.map AggEvent.event) = _
    rw [show replayAux ap none (.created c :: es.map AggEvent.event)
          = replayAux ap (some (createdMutate c)) (es.map AggEvent.event) from rfl]
    exact haux.1
  · rw [haux.2, hv0, List.length_cons, List.length_map]
    omega

/-- A fixture creation event for the replay witness. -/
def cW : CreatedEvent Unit :=
  { id := 9, version := 1, timestamp := 0, externally_notifiable := false,
    internally_notifiable := false, init := () }

/-- A fixture second event (version 2). -/
def e2W : Event Unit :=
  { id := 9, version := 2, timestamp := 5, externally_notifiable := false,
    internally_notifiable := false, payload := () }

/-- A fixture third event (version 3). -/
def e3W : Event Unit :=
  { id := 9, version := 3, timestamp := 6, externally_notifiable := false,
    internally_notifiable := false, payload := () }

/-- Witness for C2: replaying the three-event log rebuilds the aggregate at
version 3 with the last event's timestamp. -/
theorem c2_replay_full_log_witness :
    replay apUnit [.created cW, .event e2W, .event e3W]
        = .ok (some { id := 9, version := 3, create_dt := 0, update_dt := some 6,
                      state := (), events := [] })
    ∧ ([e2W, e3W].foldl (replayStep apUnit) (createdMutate cW)).version = 3 := by
  have h := c2_replay_full_log apUnit (fun _ _ => rfl) cW [e2W, e3W] rfl (by decide)
  exact ⟨h.1, h.2⟩

/-- Aggregates reachable through the repository's lifecycle: built by
`_create_`, then mutated by successful `_trigger_` calls interleaved with
`_collect_` drains. -/
inductive Reach {σ ε : Type} (ap : ApplyFn σ ε) : Aggregate σ ε → Prop where
  | create (id : Nat) (ts : Int) (en inn : Bool) (init : σ) :
      Reach ap (create id ts en inn init)
  | trigger (a : Aggregate σ ε) (ts : Int) (en inn : Bool) (p : ε)
      (a2 : Aggregate σ ε) :
      Reach ap a → trigger ap a ts en inn p = .ok a2 → Reach ap a2
  | collect (a : Aggregate σ ε) : Reach ap a → Reach ap (collect a).2

/-- Evaluation of `_trigger_`: the version guard always passes because the
event is stamped with exactly `current + 1`, so the call returns the mutated
aggregate with the new event appended to its pending queue. -/
theorem trigger_eq {σ ε : Type} (ap : ApplyFn σ ε) (a : Aggregate σ ε)
    (ts : Int) (en inn : Bool) (p : ε) :
    trigger ap a ts en inn p =
      .ok { (ap { id := a.id, version := a.version + 1, timestamp := ts,
                  externally_notifiable := en, internally_notifiable := inn,
                  payload := p }
              { a with version := a.version + 1, update_dt := some ts }) with
            events :=
              (ap { id := a.id, version := a.version + 1, timestamp := ts,
                    externally_notifiable := en, internally_notifiable := inn,
                    payload := p }
                { a with version := a.version + 1, update_dt := some ts }).events
              ++ [.event { id := a.id, version := a.version + 1, timestamp := ts,
                           externally_notifiable := en, internally_notifiable := inn,
                           payload := p }] } := by
  simp [trigger, mutate, except_map_ok]

/-- On every reachable aggregate the pending versions form the contiguous
range ending at the aggregate's version (helper for the queue invariant). -/
theorem reach_pending_versions {σ ε : Type} (ap : ApplyFn σ ε)
    (hap : ∀ e x, (ap e x).version = x.version ∧ (ap e x).events = x.events) :
    ∀ a : Aggregate σ ε, Reach ap a →
      a.events.map AggEvent.version
          = List.range' (a.version + 1 - a.events.length) a.events.length
      ∧ a.events.length ≤ a.version := by
  intro a hr
  induction hr with
  | create i ts en inn init =>
      constructor
      · simp [create, createdMutate, AggEvent.version, List.range'_one]
      · simp [create, createdMutate]
  | trigger a ts en inn p a2 hreach htrig ih =>
      rw [trigger_eq] at htrig
      cases htrig
      obtain ⟨hv, hev⟩ := hap
        ({ id := a.id, version := a.version + 1, timestamp := ts,
           externally_notifiable := en, internally_notifiable := inn,
           payload := p } : Event ε)
        { a with version := a.version + 1, update_dt := some ts }
      have hlen := ih.2
      have hstart : a.version + 1 + 1 - (a.events.length + 1)
          = a.version + 1 - a.events.length := by omega
      have hlast : a.version + 1 - a.events.length + 1 * a.events.length
          = a.version + 1 := by omega
      constructor
      · simp only [hv, hev]
        simp only [List.map_append, List.length_append, List.map_cons,
          List.map_nil, List.length_cons, List.length_nil, ih.1]
        rw [show (({ a with version := a.version + 1, update_dt := some ts } :
              Aggregate σ ε).version + 1 - (a.events.length + 1))
            = a.version + 1 - a.events.length from by simp]
        rw [List.range'_concat, hlast]
        simp [AggEvent.version]
      · simp only [hv, hev]
        simp
        omega
  | collect a hreach ih =>
      exact ⟨by simp [collect], by simp [collect]⟩

/-- A nonempty list whose versions form the contiguous range ending at `v`
has `v` as the version of its last entry. -/
theorem pending_last_version {σ ε : Type} (l : List (AggEvent σ ε)) (v : Nat)
    (hmap : l.map AggEvent.version = List.range' (v + 1 - l.length) l.length)
    (hlen : l.length ≤ v) (hne : l ≠ []) :
    (l.getLast hne).version = v := by
  have hne2 : l.map AggEvent.version ≠ [] := by simpa using hne
  have h1 := List.getLast_map AggEvent.version l hne2
  have hlen1 : 1 ≤ l.length := by
    cases l with
    | nil => exact absurd rfl hne
    | cons a t => simp
  have hrange : (l.map AggEvent.version).getLast hne2 = v := by
    simp only [hmap]
    rw [List.getLast_eq_getElem, List.getElem_range'_1]
    simp only [List.length_range']
    omega
  exact h1.symm.trans hrange

/-- C10: for every aggregate built by `_create_` and mutated by any sequence
of successful `_trigger_` calls interleaved with `_collect_` drains, the
pending-events queue always holds events with strictly consecutive versions
(the contiguous range ending at the aggregate's version) whose last entry's
version equals the aggregate's version; the event produced by `_create_` has
version 1, and each `_trigger_` stamps its event with the aggregate's id and
version `current + 1` before appending it.  The hypothesis records that the
apply hooks of this repository never touch the version bookkeeping or the
pending queue. -/
theorem c10_pending_queue_invariant {σ ε : Type} (ap : ApplyFn σ ε)
    (hap : ∀ e x, (ap e x).version = x.version ∧ (ap e x).events = x.events) :
    (∀ a : Aggregate σ ε, Reach ap a →
        a.events.map AggEvent.version
            = List.range' (a.version + 1 - a.events.length) a.events.length
        ∧ ∀ hne : a.events ≠ [], (a.events.getLast hne).version = a.version)
    ∧ (∀ (i : Nat) (ts : Int) (en inn : Bool) (init : σ),
        (create i ts en inn init : Aggregate σ ε).events
            = [.created { id := i, version := 1, timestamp := ts,
                          externally_notifiable := en,
                          internally_notifiable := inn, init := init }])
    ∧ (∀ (a : Aggregate σ ε) (ts : Int) (en inn : Bool) (p : ε),
        ∃ a2, trigger ap a ts en inn p = .ok a2
          ∧ a2.version = a.version + 1
          ∧ a2.events = a.events ++
              [.event { id := a.id, version := a.version + 1, timestamp := ts,
                        externally_notifiable := en,
                        internally_notifiable := inn, payload := p }]) := by
  refine ⟨?_, fun i ts en inn init => rfl, ?_⟩
  · intro a hr
    have hinv := reach_pending_versions ap hap a hr
    exact ⟨hinv.1, fun hne => pending_last_version _ _ hinv.1 hinv.2 hne⟩
  · intro a ts en inn p
    obtain ⟨hv, hev⟩ := hap
      ({ id := a.id, version := a.version + 1, timestamp := ts,
         externally_notifiable := en, internally_notifiable := inn,
         payload := p } : Event ε)
      { a with version := a.version + 1, update_dt := some ts }
    refine ⟨_, trigger_eq ap a ts en inn p, ?_, ?_⟩
    · simpa using hv
    · simpa using hev

/-- A fixture aggregate built by `_create_`. -/
def createdW : Aggregate Unit Unit := create 4 0 false false ()

/-- Witness for C10: the freshly created aggregate carries exactly its
creation event at version 1, and a trigger on it appends the version-2 event
stamped with its id. -/
theorem c10_pending_queue_invariant_witness :
    createdW.events.map AggEvent.version = List.range' 1 1
    ∧ (∃ a2, trigger apUnit createdW 1 false false () = .ok a2
        ∧ a2.version = 2
        ∧ a2.events = createdW.events ++
            [.event { id := 4, version := 2, timestamp := 1,
                      externally_notifiable := false,
                      internally_notifiable := false, payload := () }]) := by
  have h := c10_pending_queue_invariant apUnit (fun _ _ => ⟨rfl, rfl⟩)
  exact ⟨(h.1 createdW (Reach.create 4 0 false false ())).1,
    h.2.2 createdW 1 false false ()⟩

/-- The permission check with the `DEFAULT = 0` permission holds on every
bitmask. -/
theorem hasPerm_zero (n : Nat) : has_permission n [0] = true := by
  simp [has_permission]

/-- Adding a power-of-two flag that is absent makes its check pass. -/
theorem hasPerm_add_pow (n k : Nat) (h : has_permission n [2 ^ k] = false) :
    has_permission (n + 2 ^ k) [2 ^ k] = true := by
  simp only [has_permission, List.all_cons, List.all_nil, Bool.and_true] at h ⊢
  have htb : n.testBit k = false := by
    rcases hb : n.testBit k
    · rfl
    · exfalso
      have hand := Nat.and_two_pow n k
      rw [hb] at hand
      simp only [Bool.toNat_true, one_mul] at hand
      rw [hand] at h
      simp at h
  have h2 : (n + 2 ^ k) / 2 ^ k = n / 2 ^ k + 1 :=
    Nat.add_div_right n (Nat.two_pow_pos k)
  have hdiv : n / 2 ^ k % 2 = 0 := by
    rw [Nat.testBit_to_div_mod] at htb
    simp only [decide_eq_false_iff_not] at htb
    omega
  have h3 : (n + 2 ^ k).testBit k = true := by
    rw [Nat.testBit_to_div_mod, h2]
    simp only [decide_eq_true_eq]
    omega
  rw [Nat.and_two_pow, h3]
  simp

/-- Every `AccessPermission` enum value is zero or a power of two. -/
theorem accessPermission_pow (p : Nat) (hp : p ∈ AccessPermissionValues) :
    p = 0 ∨ ∃ k, p = 2 ^ k := by
  fin_cases hp
  · exact Or.inl rfl
  · exact Or.inr ⟨0, rfl⟩
  · exact Or.inr ⟨1, rfl⟩
  · exact Or.inr ⟨2, rfl⟩
  · exact Or.inr ⟨3, rfl⟩
  · exact Or.inr ⟨4, rfl⟩
  · exact Or.inr ⟨5, rfl⟩
  · exact Or.inr ⟨6, rfl⟩
  · exact Or.inr ⟨7, rfl⟩
  · exact Or.inr ⟨8, rfl⟩
  · exact Or.inr ⟨9, rfl⟩
  · exact Or.inr ⟨10, rfl⟩
  · exact Or.inr ⟨11, rfl⟩
  · exact Or.inr ⟨12, rfl⟩
  · exact Or.inr ⟨13, rfl⟩

/-- C9: for every permissions bitmask and every `AccessPermission` value `p`:
after `add_permission(p)` the check `has_permission(p)` holds;
`add_permission(p)` leaves the bitmask unchanged when `has_permission(p)`
already holds; `remove_permission(p)` after `add_permission(p)` on a state
without `p` restores the original bitmask; and `has_permission(DEFAULT = 0)`
holds for every state. -/
theorem c9_permission_algebra (perms p : Nat) (hp : p ∈ AccessPermissionValues) :
    has_permission (add_permission perms [p]) [p] = true
    ∧ (has_permission perms [p] = true → add_permission perms [p] = perms)
    ∧ (has_permission perms [p] = false →
        remove_permission (add_permission perms [p]) [p] = perms)
    ∧ has_permission perms [0] = true := by
  have hadd : ∀ (q : Nat), add_permission perms [q]
      = if has_permission perms [q] then perms else perms + q := fun _ => rfl
  rcases accessPermission_pow p hp with rfl | ⟨k, rfl⟩
  · refine ⟨?_, fun _ => ?_, fun hfalse => ?_, hasPerm_zero perms⟩
    · rw [hadd, if_pos (hasPerm_zero perms)]
      exact hasPerm_zero perms
    · rw [hadd, if_pos (hasPerm_zero perms)]
    · rw [hasPerm_zero perms] at hfalse
      cases hfalse
  · by_cases hhas : has_permission perms [2 ^ k] = true
    · refine ⟨?_, fun _ => ?_, fun hfalse => ?_, hasPerm_zero perms⟩
      · rw [hadd, if_pos hhas]
        exact hhas
      · rw [hadd, if_pos hhas]
      · rw [hhas] at hfalse
        cases hfalse
    · have hf : has_permission perms [2 ^ k] = false :=
        Bool.not_eq_true _ ▸ Bool.eq_false_iff.mpr hhas
      have haddeq : add_permission perms [2 ^ k] = perms + 2 ^ k := by
        rw [hadd, if_neg]
        rw [hf]
        exact Bool.false_ne_true
      refine ⟨?_, fun htrue => ?_, fun _ => ?_, hasPerm_zero perms⟩
      · rw [haddeq]
        exact hasPerm_add_pow perms k hf
      · rw [hf] at htrue
        cases htrue
      · rw [haddeq]
        have hrm : remove_permission (perms + 2 ^ k) [2 ^ k]
            = if has_permission (perms + 2 ^ k) [2 ^ k]
              then perms + 2 ^ k - 2 ^ k else perms + 2 ^ k := rfl
        rw [hrm, if_pos (hasPerm_add_pow perms k hf)]
        omega

/-- Witness for C9 at `perms = 3` with `p = ACADEMIC = 64` (absent) and at
`perms = 67` (present). -/
theorem c9_permission_algebra_witness :
    has_permission (add_permission 3 [64]) [64] = true
    ∧ add_permission 67 [64] = 67
    ∧ remove_permission (add_permission 3 [64]) [64] = 3
    ∧ has_permission 3 [0] = true := by
  refine ⟨(c9_permission_algebra 3 64 (by decide)).1, ?_, ?_,
    (c9_permission_algebra 3 64 (by decide)).2.2.2⟩
  · exact (c9_permission_algebra 67 64 (by decide)).2.1 (by decide)
  · exact (c9_permission_algebra 3 64 (by decide)).2.2.1 (by decide)

/-- The refined `MakePurchase(requested_access=[ACADEMIC], is_group_purchase=False)`
command. -/
def academicPurchase : MakePurchase :=
  { requested_access := [ACADEMIC], is_group_purchase := false }

/-- The two events appended by an ACADEMIC solo purchase: `PurchaseMade`
then the chained `PermissionAssigned`. -/
def purchaseEvents (u : UserAgg) (ts1 ts2 : Int) :
    List (AggEvent UserState UserEventPayload) :=
  (u.events ++
    [.event { id := u.id, version := u.version + 1, timestamp := ts1,
              externally_notifiable := false, internally_notifiable := false,
              payload := .purchaseMade [ACADEMIC] }]) ++
  [.event { id := u.id, version := u.version + 1 + 1, timestamp := ts2,
            externally_notifiable := false, internally_notifiable := false,
            payload := .permissionAssigned [ACADEMIC] }]

/-- The aggregate state after an ACADEMIC solo purchase, parameterised by the
resulting permissions bitmask. -/
def purchaseResult (u : UserAgg) (ts1 ts2 : Int) (perms2 : Nat) : UserAgg :=
  { u with
    version := u.version + 1 + 1,
    update_dt := some ts2,
    state := { u.state with permissions := perms2 },
    events := purchaseEvents u ts1 ts2 }

/-- C8: executing `MakePurchase` with requested access `ACADEMIC` and
`is_group_purchase = false` on any user aggregate appends exactly two new
events to the pending queue in order — a `PurchaseMade` event followed by the
chained `PermissionAssigned` event — after which `has_permission(ACADEMIC)`
holds. -/
theorem c8_make_purchase_academic (u : UserAgg) (ts1 ts2 : Int) :
    ∃ u2, make_purchase u academicPurchase ts1 ts2 = .ok u2
      ∧ u2.events = u.events ++
          [.event { id := u.id, version := u.version + 1, timestamp := ts1,
                    externally_notifiable := false,
                    internally_notifiable := false,
                    payload := .purchaseMade [ACADEMIC] },
           .event { id := u.id, version := u.version + 2, timestamp := ts2,
                    externally_notifiable := false,
                    internally_notifiable := false,
                    payload := .permissionAssigned [ACADEMIC] }]
      ∧ has_permission u2.state.permissions [ACADEMIC] = true := by
  have h64 : (64 : Nat) = 2 ^ 6 := by norm_num
  by_cases hh : has_permission u.state.permissions [ACADEMIC] = true
  · refine ⟨purchaseResult u ts1 ts2 u.state.permissions, ?_, ?_, ?_⟩
    · simp [make_purchase, academicPurchase, assign_permission, trigger_eq,
        applyUser, hh, purchaseResult, purchaseEvents, except_bindM_ok]
    · simp [purchaseResult, purchaseEvents]
    · simpa [purchaseResult] using hh
  · have hf : has_permission u.state.permissions [ACADEMIC] = false := by
      rcases hb : has_permission u.state.permissions [ACADEMIC]
      · rfl
      · exact absurd hb hh
    have haddeq : add_permission u.state.permissions [ACADEMIC]
        = u.state.permissions + ACADEMIC := by
      show (if has_permission u.state.permissions [ACADEMIC]
            then u.state.permissions
            else u.state.permissions + ACADEMIC) = _
      rw [hf]
      simp
    have hperm : has_permission
        (add_permission u.state.permissions [ACADEMIC]) [ACADEMIC] = true := by
      rw [haddeq]
      show has_permission (u.state.permissions + 64) [64] = true
      rw [h64]
      exact hasPerm_add_pow u.state.permissions 6 (by rw [← h64]; exact hf)
    refine ⟨purchaseResult u ts1 ts2
        (add_permission u.state.permissions [ACADEMIC]), ?_, ?_, ?_⟩
    · simp [make_purchase, academicPurchase, assign_permission, trigger_eq,
        applyUser, hf, purchaseResult, purchaseEvents, except_bindM_ok]
    · simp [purchaseResult, purchaseEvents]
    · simpa [purchaseResult] using hperm

/-- The canonical hex form of the nil UUID. -/
def hex0 : String := "00000000000000000000000000000000"

/-- A plain dict of JSON primitives whose key set collides with the codec
envelope produced by `_encode_dict`. -/
def envelopeCollision : PyValue :=
  .dict [("__type__", .str "uuid_hex"), ("__data__", .str hex0)]

/-- The envelope emitted by `_encode_dict` for a driver-native UUID. -/
def pgEnvelope : JValue :=
  .obj [("__type__", .str "pguuid_hex"), ("__data__", .str hex0)]

/-- The tag string of an envelope-shaped JSON object (first key's string
value), used to tell the two UUID envelopes apart. -/
def headTag : JValue → String
  | .obj ((_, .str t) :: _) => t
  | _ => ""

/-- C3 counterexample: the round-trip laws fail on the program.  First,
`decode(encode(x)) == x` fails on a value composed only of JSON primitives —
a dict whose keys are exactly `__type__` and `__data__` — because the object
hook of `_decode_dict` converts it into a `UUID`.  Second, both laws fail at
any driver-native UUID: `PgUUIDAsHex.decode` returns a plain `UUID`, so
decoding the `pguuid_hex` envelope yields a standard UUID whose re-encoding
carries the `uuid_hex` tag instead of reproducing the `pguuid_hex` envelope
that `encode` produced. -/
theorem c3_roundtrip_counterexample :
    ¬ Except.bind (encodePy envelopeCollision) decodeJ = .ok envelopeCollision
    ∧ ¬ Except.bind (encodePy (.pguuid hex0)) decodeJ = .ok (.pguuid hex0)
    ∧ encodePy (.pguuid hex0) = .ok pgEnvelope
    ∧ ¬ Except.bind (decodeJ pgEnvelope) encodePy = .ok pgEnvelope := by
  refine ⟨?_, ?_, rfl, ?_⟩
  · intro h
    rw [show Except.bind (encodePy envelopeCollision) decodeJ
          = .ok (.uuid hex0) from rfl] at h
    injection h with h3
    simp [envelopeCollision] at h3
  · intro h
    rw [show Except.bind (encodePy (.pguuid hex0)) decodeJ
          = .ok (.uuid hex0) from rfl] at h
    injection h with h3
    exact PyValue.noConfusion h3
  · intro h
    rw [show Except.bind (decodeJ pgEnvelope) encodePy
          = .ok (.obj [("__type__", .str "uuid_hex"),
                       ("__data__", .str hex0)]) from rfl] at h
    injection h with h3
    have h4 := congrArg headTag h3
    exact absurd h4 (by decide)

/-- C3 (amended): for every value composed only of JSON primitives and the
registered custom types other than the driver-native UUID (whose registered
decoder returns a plain `UUID`, collapsing the tag on re-encode), in
canonical form and containing no dict whose key set is exactly the codec
envelope keys, `decode(encode(x)) == x`; for every encoding produced from
such a value, `encode(decode(x)) == x`; and encoding a value whose type is
unregistered and not a JSON primitive fails with `TypeError`. -/
theorem c3_transcoder_roundtrip (v : PyValue) (hwf : wfPy v = true) :
    Except.bind (encodePy v) decodeJ = .ok v
    ∧ (∀ j, encodePy v = .ok j → Except.bind (decodeJ j) encodePy = .ok j)
    ∧ (∀ t, encodePy (.unregistered t) = .error (.typeError t)) := by
  obtain ⟨j0, he, hd⟩ := decode_encode_py v hwf
  refine ⟨?_, ?_, fun t => rfl⟩
  · rw [he, except_bind_ok, hd]
  · intro j hj
    have hjj : j0 = j := by
      rw [he] at hj
      injection hj
    subst hjj
    rw [hd, except_bind_ok, he]

/-- A canonical UUID hex fixture. -/
def hexA : String := "0123456789abcdef0123456789abcdef"

/-- A well-formed sample value using primitives and all four registered
custom encodings could appear inside: UUID, decimal, timestamp. -/
def sampleValue : PyValue :=
  .dict [("k", .list [.int 1, .uuid hexA, .decimal "1.5"]),
         ("t", .datetime "2020-01-01T00:00:00")]

/-- The encoding of `sampleValue`. -/
def sampleEncoded : JValue :=
  .obj [("k", .arr [.int 1,
          .obj [("__type__", .str "uuid_hex"), ("__data__", .str hexA)],
          .obj [("__type__", .str "decimal_str"), ("__data__", .str "1.5")]]),
        ("t", .obj [("__type__", .str "datetime_iso"),
                    ("__data__", .str "2020-01-01T00:00:00")])]

/-- Witness for the amended C3 at a concrete nested value. -/
theorem c3_transcoder_roundtrip_witness :
    Except.bind (encodePy sampleValue) decodeJ = .ok sampleValue
    ∧ Except.bind (decodeJ sampleEncoded) encodePy = .ok sampleEncoded
    ∧ encodePy (.unregistered "Complex") = .error (.typeError "Complex") := by
  have h := c3_transcoder_roundtrip sampleValue rfl
  exact ⟨h.1, h.2.1 sampleEncoded rfl, h.2.2 "Complex"⟩

/-- C5: `get(aggregateId)` over the event table returns exactly the rows of
that id, in ascending version order, and the empty sequence when the id has
never been written.  The ordering hypothesis is the insertion discipline of
the store (same-id rows are appended in ascending version order); the query
itself carries no ORDER BY, so its order is the modelled table order. -/
theorem c5_event_store_get (table : List StoredEvent) (aggregate_id : String)
    (hord : table.Pairwise fun r1 r2 => r1.id = r2.id → r1.version < r2.version) :
    (eventStoreGet table aggregate_id).Pairwise
        (fun r1 r2 => r1.version < r2.version)
    ∧ (∀ r, r ∈ eventStoreGet table aggregate_id
          ↔ r ∈ table ∧ r.id = aggregate_id)
    ∧ ((∀ r ∈ table, r.id ≠ aggregate_id) →
        eventStoreGet table aggregate_id = []) := by
  refine ⟨?_, ?_, ?_⟩
  · have hsub : List.Sublist (eventStoreGet table aggregate_id) table :=
      List.filter_sublist table
    have hp := List.Pairwise.sublist hsub hord
    refine List.Pairwise.imp_of_mem ?_ hp
    intro r1 r2 h1 h2 hr
    have e1 : r1.id = aggregate_id := by
      have := (List.mem_filter.mp h1).2
      simpa using this
    have e2 : r2.id = aggregate_id := by
      have := (List.mem_filter.mp h2).2
      simpa using this
    exact hr (e1.trans e2.symm)
  · intro r
    simp [eventStoreGet, List.mem_filter]
  · intro hnone
    simp only [eventStoreGet]
    rw [List.filter_eq_nil_iff]
    intro r hr
    simp [hnone r hr]

/-- A three-row fixture table with two aggregates interleaved. -/
def tableW : List StoredEvent :=
  [{ id := "a", version := 1, topic := "top", state := "s1" },
   { id := "b", version := 1, topic := "top", state := "s2" },
   { id := "a", version := 2, topic := "top", state := "s3" }]

/-- The first fixture row. -/
def rowA1 : StoredEvent := { id := "a", version := 1, topic := "top", state := "s1" }

/-- Witness for C5 on the fixture table: the rows of id `a` come back in
ascending version order, membership is as filtered, and an unknown id yields
the empty sequence. -/
theorem c5_event_store_get_witness :
    (eventStoreGet tableW "a").Pairwise (fun r1 r2 => r1.version < r2.version)
    ∧ (rowA1 ∈ eventStoreGet tableW "a" ↔ rowA1 ∈ tableW ∧ rowA1.id = "a")
    ∧ eventStoreGet tableW "zzz" = [] := by
  have hord : tableW.Pairwise
      (fun r1 r2 => r1.id = r2.id → r1.version < r2.version) := by decide
  exact ⟨(c5_event_store_get tableW "a" hord).1,
    (c5_event_store_get tableW "a" hord).2.1 rowA1,
    (c5_event_store_get tableW "zzz" hord).2.2 (by decide)⟩

/-- C6: `collect_backlogs("internal_backlogs")` yields the internal backlog
events of the bound repositories in the fixed repository order (users, then
groups — the same drained proxy — then outboxes), FIFO within each, drains
them exactly once, and an immediately following second call yields nothing. -/
theorem c6_collect_backlogs_drains_once (s : UowState) :
    (collect_backlogs s .internal).1 = s.es_internal ++ s.ob_internal
    ∧ (collect_backlogs (collect_backlogs s .internal).2 .internal).1 = []
    ∧ (collect_backlogs s .internal).2.es_internal = []
    ∧ (collect_backlogs s .internal).2.ob_internal = [] := by
  refine ⟨by simp [collect_backlogs], rfl, rfl, rfl⟩

/-- Reduction of monadic bind on an error value of `Except`. -/
theorem except_bindM_error {α β ε : Type} (f : α → Except ε β) (err : ε) :
    ((Except.error err : Except ε α) >>= f) = .error err := rfl

/-- Reduction of `Except.map` on an error value. -/
theorem except_map_error {α β ε : Type} (f : α → β) (err : ε) :
    Except.map f (Except.error err : Except ε α) = .error err := rfl

/-- C4 as the code behaves: committing a unit of work whose repositories hold
at least one externally-notifiable backlog event raises `AttributeError`
inside `_commit_hook` — `OutboxRepository.add` runs the inherited
`SqlAlchemyRepository._add_hook`, which reads `o.events` on a domain event —
before staging any outbox row and before committing; with no externally
notifiable backlog, commit makes the staged rows durable in one step; exiting
without commit rolls back, leaving the committed rows unchanged and staging
nothing. -/
theorem c4_commit_hook_attribute_error :
    (∀ (s : UowState) (e : BacklogEvent) (rest : List BacklogEvent),
        s.es_external = e :: rest → uowCommit s = .error .attributeError)
    ∧ (∀ s : UowState, s.es_external = [] → s.ob_external = [] →
        uowCommit s
          = .ok { s with committed := s.committed ++ s.pending, pending := [] })
    ∧ (∀ s : UowState, (uowAexit s).committed = s.committed
        ∧ (uowAexit s).pending = []) := by
  refine ⟨?_, ?_, fun s => ⟨rfl, rfl⟩⟩
  · intro s e rest h
    simp [uowCommit, commit_hook, collect_backlogs, h, outboxRepoAdd,
      sqlAlchemyAddHook, getEventsAttr, except_bindM_error, except_map_error]
  · intro s h1 h2
    rcases s with ⟨c, p, ee, ei, oe, oi⟩
    simp only at h1 h2
    subst h1
    subst h2
    rfl

/-- A fixture externally-notifiable backlog event. -/
def backlogW : BacklogEvent :=
  { id := "a", version := 2, topic := "top", state := "st",
    externally_notifiable := true, internally_notifiable := false }

/-- A fixture staged event row. -/
def rowW : DbRow := .event { id := "a", version := 2, topic := "top", state := "st" }

/-- A fixture open unit of work holding one externally-notifiable backlog
event and one staged event row. -/
def uowFailW : UowState :=
  { committed := [], pending := [rowW], es_external := [backlogW],
    es_internal := [], ob_external := [], ob_internal := [] }

/-- A fixture open unit of work with no externally-notifiable backlog. -/
def uowOkW : UowState :=
  { committed := [], pending := [rowW], es_external := [],
    es_internal := [backlogW], ob_external := [], ob_internal := [] }

/-- Witness for C4 at concrete states: the backlogged commit raises
`AttributeError`, the clean commit lands its staged row, and rollback stages
nothing. -/
theorem c4_commit_hook_attribute_error_witness :
    uowCommit uowFailW = .error .attributeError
    ∧ uowCommit uowOkW = .ok { uowOkW with committed := [rowW], pending := [] }
    ∧ (uowAexit uowFailW).committed = [] ∧ (uowAexit uowFailW).pending = [] := by
  refine ⟨c4_commit_hook_attribute_error.1 uowFailW backlogW [] rfl, ?_, ?_, ?_⟩
  · exact c4_commit_hook_attribute_error.2.1 uowOkW rfl rfl
  · exact (c4_commit_hook_attribute_error.2.2 uowFailW).1
  · exact (c4_commit_hook_attribute_error.2.2 uowFailW).2

/-- C7: in `MessageBus.handle`, a command-handler exception propagates and
aborts the entire call; an event-handler exception other than the stop
sentinel is swallowed and the remaining handlers run; a `StopSentinel` aborts
the remaining handlers of that event, appends the supplied fallback event to
the queue when one is present, and the outer loop continues. -/
theorem c7_bus_exception_policy :
    (∀ (bus : MessageBusModel) (fuel tag : Nat) (queue : List BusMessage)
        (results : List Nat), bus.command_handlers tag = .exn →
        handleLoop bus (fuel + 1) (.command tag :: queue) results
          = .error .commandHandlerError)
    ∧ (∀ (hs : List EventHandlerOutcome) (queue : List BusMessage)
        (results : List Nat),
        handle_event (.exn :: hs) queue results = handle_event hs queue results)
    ∧ (∀ (hs : List EventHandlerOutcome) (queue : List BusMessage)
        (results : List Nat) (fb : Option BusMessage),
        handle_event (.stop fb :: hs) queue results
          = (queue ++ fb.toList, results))
    ∧ (∀ (bus : MessageBusModel) (fuel tag : Nat) (queue : List BusMessage)
        (results : List Nat) (fb : Option BusMessage)
        (hs : List EventHandlerOutcome),
        bus.event_handlers tag = .stop fb :: hs →
        handleLoop bus (fuel + 1) (.event tag :: queue) results
          = handleLoop bus fuel (queue ++ fb.toList) results) := by
  refine ⟨?_, fun hs q r => rfl, fun hs q r fb => rfl, ?_⟩
  · intro bus fuel tag q r h
    simp [handleLoop, h]
  · intro bus fuel tag q r fb hs h
    simp [handleLoop, h, handle_event]

/-- A fixture bus: event tag 0 has a single handler raising `StopSentinel`
with fallback command 1; command tag 1 has a normal handler, every other
command handler raises. -/
def busW : MessageBusModel :=
  { event_handlers := fun t =>
      if t = 0 then [.stop (some (.command 1))] else [],
    command_handlers := fun t =>
      if t = 1 then .ok 7 [] else .exn }

/-- Witness for C7 on the fixture bus. -/
theorem c7_bus_exception_policy_witness :
    handleLoop busW 1 [.command 2] [] = .error .commandHandlerError
    ∧ handle_event [.exn, .ok (some 5) []] [] []
        = handle_event [.ok (some 5) []] [] []
    ∧ handle_event [.stop (some (.command 1))] [.event 3] []
        = ([.event 3, .command 1], [])
    ∧ handleLoop busW 2 [.event 0] [] = handleLoop busW 1 [.command 1] [] := by
  refine ⟨c7_bus_exception_policy.1 busW 0 2 [] [] rfl,
    c7_bus_exception_policy.2.1 [.ok (some 5) []] [] [],
    c7_bus_exception_policy.2.2.1 [] [.event 3] [] (some (.command 1)),
    c7_bus_exception_policy.2.2.2 busW 1 0 [] [] (some (.command 1)) [] rfl⟩

end IAM
